import Mathlib

/-
  Verification development for the waapi_helpers library
  (src/waapi_helpers/requests.py).

  The Python functions are shallowly embedded: JSON-like request/response
  values become the inductive type JVal, the WAAPI client becomes a record
  holding a connection flag and a pure call function, fallible Python code
  returns Except PyErr, and generators are materialised into the list of
  values they yield together with the list of remote calls they issue.
-/

/-- A JSON-like dynamic value, modelling the Python values that flow through
the request helpers: None, booleans, integers, strings, lists, tuples and
string-keyed dictionaries. -/
inductive JVal where
  | vnone : JVal
  | vbool : Bool → JVal
  | vint : Int → JVal
  | vstr : String → JVal
  | vlist : List JVal → JVal
  | vtup : List JVal → JVal
  | vdict : List (String × JVal) → JVal

/-- Python exceptions that the embedded code can raise. -/
inductive PyErr where
  | keyError | typeError | attributeError | valueError | assertionError | indexError
deriving DecidableEq

/-- First-match lookup in an association list, modelling Python dict access
(the dictionaries built here have distinct keys, so first-match is exact). -/
def jlookup : List (String × JVal) → String → Option JVal
  | [], _ => none
  | (k, v) :: rest, key => if k = key then some v else jlookup rest key

/-- isinstance(obj, dict) -/
def JVal.isDict : JVal → Bool
  | .vdict _ => true
  | _ => false

/-- `key in obj` for a dict operand (used after an isDict check). -/
def hasKey (v : JVal) (k : String) : Bool :=
  match v with
  | .vdict kvs => (jlookup kvs k).isSome
  | _ => false

/-- _check_fields: isinstance(obj, dict) and all(f in obj for f in fields). -/
def check_fields (obj : JVal) (fields : List String) : Bool :=
  obj.isDict && fields.all (fun f => hasKey obj f)

/-- len(v): defined for sized Python values, TypeError otherwise. -/
def pyLen : JVal → Except PyErr Nat
  | .vstr s => .ok s.length
  | .vlist xs => .ok xs.length
  | .vtup xs => .ok xs.length
  | .vdict kvs => .ok kvs.length
  | _ => .error .typeError

/-- v[k] with a string key: dict lookup (KeyError when absent), TypeError on
non-dict operands. -/
def getitemD : JVal → String → Except PyErr JVal
  | .vdict kvs, k =>
    match jlookup kvs k with
    | some v => .ok v
    | none => .error .keyError
  | _, _ => .error .typeError

/-- v[i] with a non-negative integer index. -/
def pyIndex : JVal → Nat → Except PyErr JVal
  | .vlist xs, i => match xs.get? i with | some v => .ok v | none => .error .indexError
  | .vtup xs, i => match xs.get? i with | some v => .ok v | none => .error .indexError
  | .vstr s, i =>
    match s.toList.get? i with
    | some ch => .ok (.vstr (String.mk [ch]))
    | none => .error .indexError
  | .vdict _, _ => .error .keyError
  | _, _ => .error .typeError

/-- obj.get(k, None): AttributeError unless obj is a dict. -/
def dictGet : JVal → String → Except PyErr (Option JVal)
  | .vdict kvs, k => .ok (jlookup kvs k)
  | _, _ => .error .attributeError

/-- _check_get_ret: _check_fields(ret, "return") and len(ret["return"]) > 0.
The conjunction short-circuits, and len can itself raise. -/
def check_get_ret (ret : JVal) : Except PyErr Bool :=
  if check_fields ret ["return"] then
    match getitemD ret "return" with
    | .error e => .error e
    | .ok v =>
      match pyLen v with
      | .error e => .error e
      | .ok n => .ok (decide (0 < n))
  else
    .ok false

/-- `key in root` for the shapes _iter_dict_depth can reach: key membership
for dicts, element membership for lists and tuples, substring test for
strings, TypeError for unsized values. -/
def pyInKey (root : JVal) (key : String) : Except PyErr Bool :=
  match root with
  | .vdict kvs => .ok ((jlookup kvs key).isSome)
  | .vlist xs => .ok (xs.any (fun x => match x with | .vstr s => decide (s = key) | _ => false))
  | .vtup xs => .ok (xs.any (fun x => match x with | .vstr s => decide (s = key) | _ => false))
  | .vstr s => .ok (decide (1 < (s.splitOn key).length) || decide (key = ""))
  | _ => .error .typeError

/-- Iterating a Python value: lists and tuples yield elements, strings yield
characters, dicts yield keys, everything else raises TypeError. -/
def pyIterElems : JVal → Except PyErr (List JVal)
  | .vlist xs => .ok xs
  | .vtup xs => .ok xs
  | .vstr s => .ok (s.toList.map (fun ch => .vstr (String.mk [ch])))
  | .vdict kvs => .ok (kvs.map (fun kv => .vstr kv.1))
  | _ => .error .typeError

/-- The _StrOrSeqOfStr arguments of the library: either a single string or a
sequence of strings (the only shapes the type annotations admit). -/
inductive StrOrSeq where
  | str : String → StrOrSeq
  | seq : List String → StrOrSeq
deriving DecidableEq

/-- _ensure_str_list without an ignore value: a string becomes a singleton
list, a sequence becomes the list of its items. -/
def ensure_str_list : StrOrSeq → List String
  | .str s => [s]
  | .seq l => l

/-- Python truthiness of an optional string-or-sequence argument: None, the
empty string and the empty list are falsy. -/
def truthyS : StrOrSeq → Bool
  | .str s => !s.isEmpty
  | .seq l => !l.isEmpty

def truthyArg : Option StrOrSeq → Bool
  | none => false
  | some x => truthyS x

/-- _is_any_val_none(a, b): not all(args), i.e. true when either argument is
falsy (None included). -/
def is_any_val_none (a b : Option StrOrSeq) : Bool :=
  !(truthyArg a && truthyArg b)

/-- The types argument after _ensure_str_list(types, ignore="any"): the exact
string "any" is passed through unchanged, everything else becomes a list. -/
inductive TypesArg where
  | anyT : TypesArg
  | listT : List String → TypesArg
deriving DecidableEq

def ensure_types (x : StrOrSeq) : TypesArg :=
  if x = .str "any" then .anyT else .listT (ensure_str_list x)

/-- len(x) for a _StrOrSeqOfStr value (used by create_objects on the raw
names argument). -/
def lenStrOrSeq : StrOrSeq → Nat
  | .str s => s.length
  | .seq l => l.length

/-- One remote procedure call as issued through client.call. -/
structure CallRec where
  uri : String
  query : JVal
  options : Option (List String)

/-- The WAAPI client: a connection flag and a pure view of the remote as a
function from call arguments to the response value (vnone models a call that
returns None). -/
structure Client where
  connected : Bool
  call : String → JVal → Option (List String) → JVal

/-- _check_client: client is not None and client.is_connected(). -/
def check_client (c : Client) : Bool := c.connected

def core_object_get : String := "ak.wwise.core.object.get"
def core_object_create : String := "ak.wwise.core.object.create"
def core_object_set_property : String := "ak.wwise.core.object.setProperty"
def core_audio_import : String := "ak.wwise.core.audio.import"

/-- The query built by get_object: "from" keyed by "path" when the argument
starts with a backslash, by "id" otherwise. -/
def mkGetQuery (g : String) : JVal :=
  .vdict [("from", .vdict [((if g.startsWith "\\" then "path" else "id"), .vlist [.vstr g])])]

/-- get_object: defaults properties to ["id"], asserts a connected client,
issues one call and reshapes the response into a tuple of optional property
values (all None when the return-check fails). -/
def get_object (c : Client) (g : String) (properties : Option StrOrSeq) :
    Except PyErr (List (Option JVal)) :=
  let props := ensure_str_list (properties.getD (.seq ["id"]))
  if !(check_client c) then .error .assertionError
  else
    let ret := c.call core_object_get (mkGetQuery g) (some props)
    match check_get_ret ret with
    | .error e => .error e
    | .ok false => .ok (props.map (fun _ => none))
    | .ok true =>
      match getitemD ret "return" with
      | .error e => .error e
      | .ok rv =>
        match pyIndex rv 0 with
        | .error e => .error e
        | .ok obj => props.mapM (fun p => dictGet obj p)

/-- set_property_value, observed through the calls it issues: a None value
returns immediately with no remote call, otherwise exactly one setProperty
call is made. -/
def set_property_value (c : Client) (obj_guid property_name : String)
    (value : Option JVal) : List CallRec :=
  match value with
  | none => []
  | some v =>
    [⟨core_object_set_property,
      .vdict [("object", .vstr obj_guid), ("property", .vstr property_name), ("value", v)],
      none⟩]

/-- The query built by _walk_depth_first: select the children of the start
object, addressed by "path" when the start begins with a backslash and by
"id" otherwise. -/
def childrenQuery (start : String) : JVal :=
  .vdict [("from", .vdict [((if start.startsWith "\\" then "path" else "id"), .vlist [.vstr start])]),
          ("transform", .vlist [.vdict [("select", .vlist [.vstr "children"])]])]

/-- Failures of a materialised walk: a Python exception escaping the
generator, or exhaustion of the recursion-depth budget used to make the
embedding total (the Python source recurses without any depth bound). -/
inductive WalkErr where
  | fuelOut : WalkErr
  | py : PyErr → WalkErr
deriving DecidableEq

/-- types == "any" or obj["type"] in types. The left disjunct short-circuits,
so obj["type"] is only read when an actual type list was given; membership of
a JSON value in a list of Python strings holds exactly for an equal string. -/
def typeOK (types : TypesArg) (obj : JVal) : Except PyErr Bool :=
  match types with
  | .anyT => .ok true
  | .listT ts =>
    match getitemD obj "type" with
    | .error e => .error e
    | .ok tv => .ok (ts.any (fun t => match tv with | .vstr s => decide (s = t) | _ => false))

mutual

/-- _walk_depth_first, materialised: returns the remote calls it issues and
the tuples it yields, in order. One call per invocation; a failing
return-check ends the branch with no yields; otherwise each returned object
is filtered by type, its tuple of requested properties is yielded (obj[p],
raising KeyError when absent), and the walk recurses into obj["id"]. -/
def walkDF (c : Client) (props ret_props : List String) (types : TypesArg) :
    Nat → String → Except WalkErr (List CallRec × List (List JVal))
  | 0, _ => .error .fuelOut
  | Nat.succ fuel, start =>
    let q := childrenQuery start
    let ret := c.call core_object_get q (some props)
    match check_get_ret ret with
    | .error e => .error (.py e)
    | .ok false => .ok ([⟨core_object_get, q, some props⟩], [])
    | .ok true =>
      match getitemD ret "return" with
      | .error e => .error (.py e)
      | .ok rv =>
        match pyIterElems rv with
        | .error e => .error (.py e)
        | .ok objs =>
          match walkObjs c props ret_props types fuel objs with
          | .error e => .error e
          | .ok (cs, ys) => .ok (⟨core_object_get, q, some props⟩ :: cs, ys)
termination_by fuel _ => (fuel, 0)

/-- The loop body of _walk_depth_first over the objects of one response. -/
def walkObjs (c : Client) (props ret_props : List String) (types : TypesArg) :
    Nat → List JVal → Except WalkErr (List CallRec × List (List JVal))
  | _, [] => .ok ([], [])
  | fuel, obj :: rest =>
    match typeOK types obj with
    | .error e => .error (.py e)
    | .ok tm =>
      match (if tm then
               (match ret_props.mapM (fun p => getitemD obj p) with
                | .error e => .error e
                | .ok tup => .ok [tup])
             else (.ok [] : Except PyErr (List (List JVal)))) with
      | .error e => .error (.py e)
      | .ok ts =>
        match getitemD obj "id" with
        | .error e => .error (.py e)
        | .ok idv =>
          match idv with
          | .vstr s =>
            match walkDF c props ret_props types fuel s with
            | .error e => .error e
            | .ok (cs1, ys1) =>
              match walkObjs c props ret_props types fuel rest with
              | .error e => .error e
              | .ok (cs2, ys2) => .ok (cs1 ++ cs2, ts ++ ys1 ++ ys2)
          | _ => .error (.py .attributeError)
termination_by fuel objs => (fuel, objs.length + 1)

end

/-- The loop of walk_wproj over the ensured start list. -/
def walkStarts (c : Client) (props ret_props : List String) (types : TypesArg)
    (fuel : Nat) : List String → Except WalkErr (List CallRec × List (List JVal))
  | [] => .ok ([], [])
  | s :: rest =>
    match walkDF c props ret_props types fuel s with
    | .error e => .error e
    | .ok (cs1, ys1) =>
      match walkStarts c props ret_props types fuel rest with
      | .error e => .error e
      | .ok (cs2, ys2) => .ok (cs1 ++ cs2, ys1 ++ ys2)

/-- The property list sent to the remote: the requested list with "id" and
then "type" appended when not already present. -/
def propsPlus (props : List String) : List String :=
  let p1 := if props.contains "id" then props else props ++ ["id"]
  if p1.contains "type" then p1 else p1 ++ ["type"]

/-- walk_wproj, materialised. A None properties argument defaults to ["id"];
a disconnected client raises ValueError; a falsy start or types argument hits
`return ValueError(...)` inside the generator, which only ends the iteration,
so the result is an empty walk with no calls and no exception. -/
def walk_wproj (c : Client) (startArg properties typesArg : Option StrOrSeq)
    (fuel : Nat) : Except WalkErr (List CallRec × List (List JVal)) :=
  let properties := properties.getD (.seq ["id"])
  if !(check_client c) then .error (.py .valueError)
  else if is_any_val_none startArg typesArg then .ok ([], [])
  else
    match startArg, typesArg with
    | some sa, some ta =>
      let start_list := ensure_str_list sa
      let props0 := ensure_str_list properties
      let req_types := ensure_types ta
      walkStarts c (propsPlus props0) props0 req_types fuel start_list
    | _, _ => .ok ([], [])

mutual

/-- The while loop of _iter_dict_depth after the initial yield: while the key
is in the current value, descend into it and yield it. For a dict, `key in
root` holds when the key is present and `root[key]` is its (first) value,
here found by a single scan of the entries. Descending out of a dict hits
`root[key]` on a non-dict, which raises TypeError when the `in` test
succeeded on a list, tuple or string, and the `in` test itself raises
TypeError on unsized values. -/
def iter_dict_depth_from (key : String) : JVal → Except PyErr (List JVal)
  | .vdict kvs => iter_dict_depth_go key kvs
  | .vlist xs =>
    if xs.any (fun x => match x with | .vstr s => decide (s = key) | _ => false)
    then .error .typeError else .ok []
  | .vtup xs =>
    if xs.any (fun x => match x with | .vstr s => decide (s = key) | _ => false)
    then .error .typeError else .ok []
  | .vstr s =>
    if decide (1 < (s.splitOn key).length) || decide (key = "")
    then .error .typeError else .ok []
  | .vnone => .error .typeError
  | .vbool _ => .error .typeError
  | .vint _ => .error .typeError

def iter_dict_depth_go (key : String) : List (String × JVal) → Except PyErr (List JVal)
  | [] => .ok []
  | (k, v) :: rest =>
    if k = key then
      match iter_dict_depth_from key v with
      | .error e => .error e
      | .ok tail => .ok (v :: tail)
    else iter_dict_depth_go key rest

end

/-- _iter_dict_depth: empty for None, otherwise the root followed by the
chain of values reached by repeatedly indexing with the key. -/
def iter_dict_depth (d : JVal) (key : String) : Except PyErr (List JVal) :=
  match d with
  | .vnone => .ok []
  | root =>
    match iter_dict_depth_from key root with
    | .error e => .error e
    | .ok rest => .ok (root :: rest)

/-- The list comprehension [obj["id"] for obj in objs if "id" in obj]. -/
def collectIds : List JVal → Except PyErr (List JVal)
  | [] => .ok []
  | obj :: rest =>
    match pyInKey obj "id" with
    | .error e => .error e
    | .ok false => collectIds rest
    | .ok true =>
      match getitemD obj "id" with
      | .error e => .error e
      | .ok v =>
        match collectIds rest with
        | .error e => .error e
        | .ok vs => .ok (v :: vs)

/-- The per-object query of _create_objects__wide. -/
def wideQuery (parent conflict n t : String) : JVal :=
  .vdict [("parent", .vstr parent), ("onNameConflict", .vstr conflict),
          ("name", .vstr n), ("type", .vstr t)]

/-- The chain of name/type/children entries written by the loop of
_create_objects__deep: the first pair lands in the root query, every later
pair in a fresh single-element children list. -/
def deepQueryChain : List (String × String) → List (String × JVal)
  | [] => []
  | (n, t) :: rest =>
    [("name", .vstr n), ("type", .vstr t)] ++
      (match rest with
       | [] => []
       | _ => [("children", .vlist [.vdict (deepQueryChain rest)])])

def deepQuery (parent conflict : String) (pairs : List (String × String)) : JVal :=
  .vdict ([("parent", .vstr parent), ("onNameConflict", .vstr conflict)] ++ deepQueryChain pairs)

/-- _create_objects__wide: one create call per name/type pair, collecting the
returned id, or None when the response fails the id-check. -/
def create_objects__wide (c : Client) (parent conflict : String) :
    List (String × String) → List (Option JVal)
  | [] => []
  | (n, t) :: rest =>
    let obj := c.call core_object_create (wideQuery parent conflict n t) none
    (if check_fields obj ["id"] then
       match obj with
       | .vdict kvs => jlookup kvs "id"
       | _ => none
     else none) :: create_objects__wide c parent conflict rest

/-- _create_objects__deep: one create call with the nested query, then the
ids of the dict-depth iteration of the response (objects without an id are
skipped, not replaced by None). -/
def create_objects__deep (c : Client) (parent conflict : String)
    (pairs : List (String × String)) : Except PyErr (List JVal) :=
  let ret := c.call core_object_create (deepQuery parent conflict pairs) none
  if check_fields ret ["id"] then
    match iter_dict_depth ret "children" with
    | .error e => .error e
    | .ok objs => collectIds objs
  else
    .ok []

/-- create_objects: asserts a connected client and equal lengths, returns []
when len(names) == 0, then dispatches on the method. -/
def create_objects (c : Client) (parent : String) (names types : StrOrSeq)
    (method conflict : String) : Except PyErr (List (Option JVal)) :=
  if !(check_client c) then .error .assertionError
  else
    let req_names := ensure_str_list names
    let req_types := ensure_str_list types
    if req_names.length ≠ req_types.length then .error .assertionError
    else if lenStrOrSeq names = 0 then .ok []
    else if method = "wide" then
      .ok (create_objects__wide c parent conflict (req_names.zip req_types))
    else if method = "deep" then
      match create_objects__deep c parent conflict (req_names.zip req_types) with
      | .error e => .error e
      | .ok ids => .ok (ids.map some)
    else .error .valueError

/-- os.path.basename for forward-slash paths. -/
def os_path_basename (p : String) : String :=
  (p.splitOn "/").getLastD p

/-- os.path.splitext on a base name: split at the last dot. -/
def os_path_splitext (p : String) : String × String :=
  let parts := p.splitOn "."
  if parts.length ≤ 1 then (p, "")
  else (String.intercalate "." parts.dropLast, "." ++ parts.getLastD "")

/-- _get_filename: os.path.splitext(os.path.basename(path)). Note that the
source returns the splitext PAIR itself, not its first component, so the
result is a Python tuple, not a string. -/
def get_filename (path : String) : JVal :=
  let rootExt := os_path_splitext (os_path_basename path)
  .vtup [.vstr rootExt.1, .vstr rootExt.2]

/-- Python string concatenation: str + str works, str + anything else (a
tuple in particular) raises TypeError. -/
def pyAddStr (a b : JVal) : Except PyErr JVal :=
  match a, b with
  | .vstr x, .vstr y => .ok (.vstr (x ++ y))
  | _, _ => .error .typeError

/-- The imports list of import_audio: one entry per wav file, whose
objectPath is tag + _get_filename(wav). -/
def importEntries (tag : String) : List String → Except PyErr (List JVal)
  | [] => .ok []
  | wav :: rest =>
    match pyAddStr (.vstr tag) (get_filename wav) with
    | .error e => .error e
    | .ok op =>
      match importEntries tag rest with
      | .error e => .error e
      | .ok es => .ok (.vdict [("audioFile", .vstr wav), ("objectPath", op)] :: es)

/-- import_audio, observed through the calls it issues: builds the single
request dictionary (evaluating the imports comprehension first) and performs
one audio-import call. -/
def import_audio (c : Client) (parent_guid : String) (wav_files : List String)
    (import_operation orig_subfolder : String) (is_voice : Bool) :
    Except PyErr (List CallRec) :=
  let tag := if is_voice then "<Voice>" else "<Sound>"
  match importEntries tag wav_files with
  | .error e => .error e
  | .ok entries =>
    let query : JVal :=
      .vdict [("default",
        .vdict [("importOperation", .vstr import_operation),
                ("importLocation", .vstr parent_guid),
                ("originalsSubFolder", .vstr orig_subfolder),
                ("imports", .vlist entries)])]
    .ok [⟨core_audio_import, query, none⟩]

/-- Model of the remote project hierarchy reachable from one start object: a
finite acyclic tree (the precondition the spec states for walk traversals).
Each node carries its id, its type and its remaining named properties. -/
inductive WTree where
  | node : String → String → List (String × JVal) → List WTree → WTree

def WTree.nid : WTree → String
  | .node i _ _ _ => i

def WTree.nty : WTree → String
  | .node _ t _ _ => t

def WTree.nprops : WTree → List (String × JVal)
  | .node _ _ ps _ => ps

def WTree.children : WTree → List WTree
  | .node _ _ _ cs => cs

/-- The value a node reports for a property name: its id and type always
exist, other names come from its property map. -/
def WTree.propVal (t : WTree) (p : String) : Option JVal :=
  if p = "id" then some (.vstr t.nid)
  else if p = "type" then some (.vstr t.nty)
  else jlookup t.nprops p

/-- The object dictionary the remote returns for a node: the requested
properties the node actually has, in request order. -/
def objFor (props : List String) (t : WTree) : JVal :=
  .vdict (props.filterMap (fun p => (t.propVal p).map (fun v => (p, v))))

/-- A successful children response. -/
def mkRet (objs : List JVal) : JVal :=
  .vdict [("return", .vlist objs)]

mutual

/-- The client behaves as the remote for this tree: the children query of
every node in the tree is answered by that node's children rendered with the
requested properties. -/
def clientAnswers (c : Client) (props : List String) : WTree → Prop
  | .node i _ _ cs =>
    c.call core_object_get (childrenQuery i) (some props) = mkRet (cs.map (objFor props))
      ∧ clientAnswersL c props cs

def clientAnswersL (c : Client) (props : List String) : List WTree → Prop
  | [] => True
  | t :: ts => clientAnswers c props t ∧ clientAnswersL c props ts

end

mutual

/-- Preorder listing of the ids of a tree (the node itself first). -/
def preIds : WTree → List String
  | .node i _ _ cs => i :: preIdsL cs

def preIdsL : List WTree → List String
  | [] => []
  | t :: ts => preIds t ++ preIdsL ts

end

mutual

/-- The strict descendants of a node, in depth-first preorder. -/
def strictDesc : WTree → List WTree
  | .node _ _ _ cs => strictDescL cs

def strictDescL : List WTree → List WTree
  | [] => []
  | t :: ts => (t :: strictDesc t) ++ strictDescL ts

end

mutual

/-- Height of the tree: 1 for a leaf. -/
def theight : WTree → Nat
  | .node _ _ _ cs => theightL cs + 1

def theightL : List WTree → Nat
  | [] => 0
  | t :: ts => max (theight t) (theightL ts)

end

/-- Whether a node has every requested property. -/
def hasPropsSelf (rp : List String) (t : WTree) : Bool :=
  rp.all (fun p => (t.propVal p).isSome)

mutual

/-- Every strict descendant has every requested property (the fetched
objects of a walk are exactly the strict descendants of the start). -/
def descHaveProps (rp : List String) : WTree → Bool
  | .node _ _ _ cs => descHavePropsL rp cs

def descHavePropsL (rp : List String) : List WTree → Bool
  | [] => true
  | t :: ts => (hasPropsSelf rp t && descHaveProps rp t) && descHavePropsL rp ts

end

/-- The type filter of the walk evaluated against a tree node. -/
def typeMatchModel (ty : TypesArg) (t : WTree) : Bool :=
  match ty with
  | .anyT => true
  | .listT ts => ts.any (fun s => decide (t.nty = s))

/-- The tuple of requested property values of a node. -/
def tupleFor (rp : List String) (t : WTree) : List JVal :=
  rp.map (fun p => (t.propVal p).getD .vnone)

mutual

/-- The tuples a faithful depth-first walk of the tree yields: for each
child in order, its own tuple when the filter matches, then the yields of
its subtree. -/
def yieldsModel (rp : List String) (ty : TypesArg) : WTree → List (List JVal)
  | .node _ _ _ cs => yieldsModelL rp ty cs

def yieldsModelL (rp : List String) (ty : TypesArg) : List WTree → List (List JVal)
  | [] => []
  | t :: ts =>
    (if typeMatchModel ty t then [tupleFor rp t] else []) ++
      yieldsModel rp ty t ++ yieldsModelL rp ty ts

end

/-- The remote call issued by one walk level. -/
def mkWalkCall (props : List String) (s : String) : CallRec :=
  ⟨core_object_get, childrenQuery s, some props⟩

theorem propVal_id (t : WTree) : t.propVal "id" = some (.vstr t.nid) := by
  simp [WTree.propVal]

theorem propVal_type (t : WTree) : t.propVal "type" = some (.vstr t.nty) := by
  simp [WTree.propVal]

theorem jlookup_objFor (t : WTree) (p : String) : ∀ (props : List String),
    jlookup (props.filterMap (fun q => (t.propVal q).map (fun v => (q, v)))) p
      = if p ∈ props then t.propVal p else none := by
  intro props
  induction props with
  | nil => simp [jlookup]
  | cons q rest ih =>
    by_cases hq : q = p
    · subst hq
      cases hpv : t.propVal q with
      | some v => simp [List.filterMap_cons, hpv, jlookup]
      | none => simp [List.filterMap_cons, hpv, jlookup, ih]
    · cases hpv : t.propVal q with
      | some v =>
        simp only [List.filterMap_cons, hpv, Option.map_some, jlookup, if_neg hq, ih,
          List.mem_cons]
        have : ¬ p = q := fun h => hq h.symm
        simp [this]
      | none =>
        have hne : ¬ p = q := fun h => hq h.symm
        simp only [List.filterMap_cons, hpv, Option.map_none, List.mem_cons, hne, false_or]
        exact ih

theorem getitemD_objFor {p : String} {props : List String} {t : WTree} {v : JVal}
    (hp : p ∈ props) (hv : t.propVal p = some v) :
    getitemD (objFor props t) p = .ok v := by
  simp [getitemD, objFor, jlookup_objFor, hp, hv]

theorem mapM_getitemD_objFor {props : List String} {t : WTree} : ∀ {rp : List String},
    (∀ p ∈ rp, p ∈ props) → hasPropsSelf rp t = true →
    rp.mapM (fun p => getitemD (objFor props t) p) = .ok (tupleFor rp t) := by
  intro rp
  induction rp with
  | nil => intro _ _; rfl
  | cons p rest ih =>
    intro hsub hhave
    simp only [hasPropsSelf, List.all_cons, Bool.and_eq_true] at hhave
    obtain ⟨hp1, hp2⟩ := hhave
    obtain ⟨v, hv⟩ := Option.isSome_iff_exists.mp hp1
    have h1 : getitemD (objFor props t) p = .ok v :=
      getitemD_objFor (hsub p (List.mem_cons_self p rest)) hv
    have h2 := ih (fun q hq => hsub q (List.mem_cons_of_mem p hq)) hp2
    simp only [List.mapM_cons, h1, h2, tupleFor, List.map_cons, hv]
    rfl

theorem check_get_ret_mkRet (objs : List JVal) :
    check_get_ret (mkRet objs) = .ok (decide (0 < objs.length)) := by
  simp [check_get_ret, mkRet, check_fields, hasKey, jlookup, getitemD, pyLen, JVal.isDict]

theorem getitemD_mkRet (objs : List JVal) :
    getitemD (mkRet objs) "return" = .ok (.vlist objs) := by
  simp [getitemD, mkRet, jlookup]

theorem typeOK_objFor {props : List String} (hty : "type" ∈ props)
    (ty : TypesArg) (t : WTree) :
    typeOK ty (objFor props t) = .ok (typeMatchModel ty t) := by
  cases ty with
  | anyT => simp [typeOK, typeMatchModel]
  | listT ts =>
    have h := getitemD_objFor hty (propVal_type t)
    simp only [typeOK, h, typeMatchModel]

/-- Main walk lemma: against a client that answers as the remote for a
finite acyclic tree whose fetched nodes carry all requested properties, the
depth-first walk succeeds given fuel at least the height of the tree, issues
exactly one children fetch per visited node (the start and every strict
descendant, in preorder) with the full property list as return options, and
yields the model tuples. -/
theorem walkDF_tree (c : Client) (props rp : List String) (ty : TypesArg)
    (hid : "id" ∈ props) (hty : "type" ∈ props) (hsub : ∀ p ∈ rp, p ∈ props) :
    ∀ fuel t, clientAnswers c props t → descHaveProps rp t = true → theight t ≤ fuel →
      walkDF c props rp ty fuel t.nid =
        .ok ((preIds t).map (mkWalkCall props), yieldsModel rp ty t) := by
  intro fuel
  induction fuel with
  | zero =>
    intro t _ _ hf
    obtain ⟨i, ty2, ps, cs⟩ := t
    simp [theight] at hf
  | succ n ih =>
    intro t hca hdp hf
    obtain ⟨i, ty2, ps, cs⟩ := t
    simp only [clientAnswers] at hca
    obtain ⟨hresp, hcaL⟩ := hca
    simp only [descHaveProps] at hdp
    simp only [theight] at hf
    have hfL : theightL cs ≤ n := by omega
    have haux : ∀ ds, clientAnswersL c props ds → descHavePropsL rp ds = true →
        theightL ds ≤ n →
        walkObjs c props rp ty n (ds.map (objFor props)) =
          .ok ((preIdsL ds).map (mkWalkCall props), yieldsModelL rp ty ds) := by
      intro ds
      induction ds with
      | nil => intro _ _ _; simp [walkObjs, preIdsL, yieldsModelL]
      | cons d rest ihd =>
        intro hcl hdl hh
        simp only [clientAnswersL] at hcl
        obtain ⟨hcd, hcrest⟩ := hcl
        simp only [descHavePropsL, Bool.and_eq_true] at hdl
        obtain ⟨⟨hdself, hddesc⟩, hdrest⟩ := hdl
        simp only [theightL] at hh
        have hhd : theight d ≤ n := le_trans (le_max_left _ _) hh
        have hhrest : theightL rest ≤ n := le_trans (le_max_right _ _) hh
        have hrec := ih d hcd hddesc hhd
        have hrest := ihd hcrest hdrest hhrest
        have hidv : getitemD (objFor props d) "id" = .ok (.vstr d.nid) :=
          getitemD_objFor hid (propVal_id d)
        have htOK := typeOK_objFor hty ty d
        cases htm : typeMatchModel ty d with
        | false =>
          simp only [List.map_cons, walkObjs, htOK, htm, hidv, hrec, hrest]
          simp [preIdsL, yieldsModelL, htm]
        | true =>
          have htup := mapM_getitemD_objFor hsub hdself
          simp only [List.map_cons, walkObjs, htOK, htm, htup, hidv, hrec, hrest]
          simp [preIdsL, yieldsModelL, htm]
    simp only [WTree.nid]
    simp only [walkDF]
    rw [hresp, check_get_ret_mkRet]
    cases cs with
    | nil =>
      simp [preIds, preIdsL, yieldsModel, yieldsModelL, mkWalkCall]
    | cons d ds =>
      have hcall := haux (d :: ds) hcaL hdp hfL
      have hdec : decide (0 < ((d :: ds).map (objFor props)).length) = true := by simp
      rw [hdec, getitemD_mkRet]
      simp only [pyIterElems, hcall]
      simp [preIds, yieldsModel, mkWalkCall]

theorem contains_mem {l : List String} {a : String} (h : l.contains a = true) : a ∈ l := by
  simpa [List.contains_eq_any_beq, List.any_eq_true, beq_iff_eq] using h

theorem mem_contains {l : List String} {a : String} (h : a ∈ l) : l.contains a = true := by
  simp only [List.contains_eq_any_beq, List.any_eq_true, beq_iff_eq]
  exact ⟨a, h, rfl⟩

theorem id_mem_propsPlus (rp : List String) : "id" ∈ propsPlus rp := by
  unfold propsPlus
  by_cases h1 : "id" ∈ rp <;> by_cases h2 : "type" ∈ rp <;> simp [h1, h2]

theorem type_mem_propsPlus (rp : List String) : "type" ∈ propsPlus rp := by
  unfold propsPlus
  by_cases h1 : "id" ∈ rp <;> by_cases h2 : "type" ∈ rp <;> simp [h1, h2]

theorem sub_propsPlus {rp : List String} {p : String} (hp : p ∈ rp) : p ∈ propsPlus rp := by
  unfold propsPlus
  by_cases h1 : "id" ∈ rp <;> by_cases h2 : "type" ∈ rp <;> simp [h1, h2, hp]

theorem walkStarts_single (c : Client) (props rp : List String) (ty : TypesArg)
    (fuel : Nat) (s : String) :
    walkStarts c props rp ty fuel [s] = walkDF c props rp ty fuel s := by
  simp only [walkStarts]
  cases h : walkDF c props rp ty fuel s with
  | error e => rfl
  | ok pair =>
    obtain ⟨a, b⟩ := pair
    simp [walkStarts]

theorem isEmpty_false_of_ne {s : String} (h : ¬ s = "") : s.isEmpty = false := by
  cases hs : s.isEmpty with
  | false => rfl
  | true => exact absurd ((String.isEmpty_iff s).mp hs) h

/-- For a connected client, a non-empty single start string and a truthy
types argument, walk_wproj reduces to one depth-first walk with the
requested properties extended by id and type. -/
theorem walk_wproj_single (c : Client) (hc : check_client c = true)
    (s : String) (hs : ¬ s = "") (psArg : Option StrOrSeq)
    (ta : StrOrSeq) (hta : truthyS ta = true) (fuel : Nat) :
    walk_wproj c (some (.str s)) psArg (some ta) fuel =
      walkDF c (propsPlus (ensure_str_list (psArg.getD (.seq ["id"]))))
        (ensure_str_list (psArg.getD (.seq ["id"]))) (ensure_types ta) fuel s := by
  have hse := isEmpty_false_of_ne hs
  have h1 : truthyArg (some (.str s)) = true := by simp [truthyArg, truthyS, hse]
  have h2 : truthyArg (some ta) = true := by simp [truthyArg, hta]
  have hnone : is_any_val_none (some (.str s)) (some ta) = false := by
    simp [is_any_val_none, h1, h2]
  simp [walk_wproj, hc, hnone, ensure_str_list, walkStarts_single]

mutual

/-- The preorder id list is the node-before-descendants listing of ids. -/
theorem preIds_eq : ∀ (t : WTree), preIds t = (t :: strictDesc t).map WTree.nid
  | .node i ty2 ps cs => by
    simp [preIds, strictDesc, WTree.nid, preIdsL_eq cs]

theorem preIdsL_eq : ∀ (ds : List WTree), preIdsL ds = (strictDescL ds).map WTree.nid
  | [] => by simp [preIdsL, strictDescL]
  | d :: rest => by
    simp [preIdsL, strictDescL, preIds_eq d, preIdsL_eq rest]

end

theorem preIds_length (t : WTree) : (preIds t).length = 1 + (strictDesc t).length := by
  rw [preIds_eq]
  simp [Nat.add_comm]

theorem tupleFor_length (rp : List String) (t : WTree) : (tupleFor rp t).length = rp.length := by
  simp [tupleFor]

mutual

/-- The walk yields exactly the strict descendants that pass the type
filter, in preorder, rendered as tuples of the requested properties. -/
theorem yieldsModel_eq (rp : List String) (ty : TypesArg) : ∀ (t : WTree),
    yieldsModel rp ty t = ((strictDesc t).filter (typeMatchModel ty)).map (tupleFor rp)
  | .node i ty2 ps cs => by
    simp [yieldsModel, strictDesc, yieldsModelL_eq rp ty cs]

theorem yieldsModelL_eq (rp : List String) (ty : TypesArg) : ∀ (ds : List WTree),
    yieldsModelL rp ty ds = ((strictDescL ds).filter (typeMatchModel ty)).map (tupleFor rp)
  | [] => by simp [yieldsModelL, strictDescL]
  | d :: rest => by
    cases htm : typeMatchModel ty d <;>
      simp [yieldsModelL, strictDescL, yieldsModel_eq rp ty d, yieldsModelL_eq rp ty rest,
        List.filter_cons, List.filter_append, htm]

end

theorem yieldsModel_mem_length {rp : List String} {ty : TypesArg} {t : WTree} {tup : List JVal}
    (h : tup ∈ yieldsModel rp ty t) : tup.length = rp.length := by
  rw [yieldsModel_eq] at h
  obtain ⟨d, _, rfl⟩ := List.mem_map.mp h
  exact tupleFor_length rp d

theorem mkWalkCall_inj (props : List String) : Function.Injective (mkWalkCall props) := by
  intro a b h
  simp only [mkWalkCall, childrenQuery, CallRec.mk.injEq, JVal.vdict.injEq,
    List.cons.injEq, Prod.mk.injEq, JVal.vlist.injEq, JVal.vstr.injEq] at h
  tauto

/-- Claim-side reading of the requested names: an omitted argument means
["id"], a single string counts as a one-element sequence. -/
def requestedNames : Option StrOrSeq → List String
  | none => ["id"]
  | some (.str s) => [s]
  | some (.seq l) => l

theorem requestedNames_eq (ps : Option StrOrSeq) :
    ensure_str_list (ps.getD (.seq ["id"])) = requestedNames ps := by
  cases ps with
  | none => rfl
  | some x => cases x <;> rfl

/-- Responses within the shapes the wrapped protocol can produce: missing
(None), a non-dict error value, a dict without a "return" key, or a dict
whose "return" is a list that is empty or begins with an object dict. -/
def respOk : JVal → Bool
  | .vdict kvs =>
    (match jlookup kvs "return" with
     | none => true
     | some (.vlist []) => true
     | some (.vlist (o :: _)) => o.isDict
     | some _ => false)
  | _ => true

/-- The value the claim assigns to the component for property p: the p value
of the first returned object, None when p is absent from it or when the
response is missing or malformed. -/
def claimedValue (r : JVal) (p : String) : Option JVal :=
  match r with
  | .vdict kvs =>
    (match jlookup kvs "return" with
     | some (.vlist (.vdict okvs :: _)) => jlookup okvs p
     | _ => none)
  | _ => none

theorem mapM_ok_of_fun {α β : Type} (f : α → β) : ∀ (l : List α),
    (l.mapM (fun a => (Except.ok (f a) : Except PyErr β))) = .ok (l.map f)
  | [] => rfl
  | a :: rest => by
    simp only [List.mapM_cons, mapM_ok_of_fun f rest, List.map_cons]
    rfl

theorem mapM_dictGet (okvs : List (String × JVal)) : ∀ (l : List String),
    (l.mapM (fun p => dictGet (JVal.vdict okvs) p)) = .ok (l.map (fun p => jlookup okvs p))
  | [] => rfl
  | p :: rest => by
    simp only [List.mapM_cons, dictGet, mapM_ok_of_fun, List.map_cons]
    rfl

/-- C1: for every connected client, every guid-or-path, and every requested
property-name sequence (a single string counting as a one-element sequence,
an omitted sequence defaulting to ["id"]), whenever the response has one of
the shapes the protocol can produce, get_object returns a tuple whose length
equals the number of requested names, whose i-th component is the value of
the i-th requested property of the returned object, and whose component is
None when that property is absent from the response or when the response is
missing or malformed. -/
theorem claim_C1_get_object_shape (c : Client) (g : String) (ps : Option StrOrSeq)
    (hc : c.connected = true)
    (hr : respOk (c.call core_object_get (mkGetQuery g) (some (requestedNames ps))) = true) :
    ∃ vals, get_object c g ps = .ok vals ∧
      vals.length = (requestedNames ps).length ∧
      vals = (requestedNames ps).map
        (claimedValue (c.call core_object_get (mkGetQuery g) (some (requestedNames ps)))) := by
  have hcc : check_client c = true := hc
  simp only [get_object, requestedNames_eq, hcc, Bool.not_true, Bool.false_eq_true, if_false]
  generalize c.call core_object_get (mkGetQuery g) (some (requestedNames ps)) = r at hr ⊢
  cases r with
  | vdict kvs =>
    cases hlook : jlookup kvs "return" with
    | none =>
      refine ⟨(requestedNames ps).map (fun _ => none), ?_, by simp, ?_⟩
      · simp [check_get_ret, check_fields, hasKey, hlook, JVal.isDict]
      · exact List.map_congr_left (fun p _ => by simp [claimedValue, hlook])
    | some rv =>
      cases rv with
      | vlist objs =>
        cases objs with
        | nil =>
          refine ⟨(requestedNames ps).map (fun _ => none), ?_, by simp, ?_⟩
          · simp [check_get_ret, check_fields, hasKey, hlook, JVal.isDict, getitemD, pyLen]
          · exact List.map_congr_left (fun p _ => by simp [claimedValue, hlook])
        | cons o rest =>
          cases o with
          | vdict okvs =>
            refine ⟨(requestedNames ps).map (fun p => jlookup okvs p), ?_, by simp, ?_⟩
            · simp only [check_get_ret, check_fields, hasKey, hlook, JVal.isDict,
                getitemD, pyLen, List.all_cons, List.all_nil, Option.isSome_some,
                Bool.and_true, Bool.true_and, if_true, List.length_cons]
              have hdec : decide (0 < rest.length + 1) = true := by simp
              simp only [hdec, pyIndex, List.get?, mapM_dictGet]
            · exact List.map_congr_left (fun p _ => by simp [claimedValue, hlook])
          | vnone => simp [respOk, hlook, JVal.isDict] at hr
          | vbool b => simp [respOk, hlook, JVal.isDict] at hr
          | vint n => simp [respOk, hlook, JVal.isDict] at hr
          | vstr s => simp [respOk, hlook, JVal.isDict] at hr
          | vlist xs => simp [respOk, hlook, JVal.isDict] at hr
          | vtup xs => simp [respOk, hlook, JVal.isDict] at hr
      | vnone => simp [respOk, hlook] at hr
      | vbool b => simp [respOk, hlook] at hr
      | vint n => simp [respOk, hlook] at hr
      | vstr s => simp [respOk, hlook] at hr
      | vtup xs => simp [respOk, hlook] at hr
      | vdict kvs2 => simp [respOk, hlook] at hr
  | vnone =>
    refine ⟨(requestedNames ps).map (fun _ => none), ?_, by simp, ?_⟩
    · simp [check_get_ret, check_fields, JVal.isDict]
    · exact List.map_congr_left (fun p _ => by simp [claimedValue])
  | vbool b =>
    refine ⟨(requestedNames ps).map (fun _ => none), ?_, by simp, ?_⟩
    · simp [check_get_ret, check_fields, JVal.isDict]
    · exact List.map_congr_left (fun p _ => by simp [claimedValue])
  | vint n =>
    refine ⟨(requestedNames ps).map (fun _ => none), ?_, by simp, ?_⟩
    · simp [check_get_ret, check_fields, JVal.isDict]
    · exact List.map_congr_left (fun p _ => by simp [claimedValue])
  | vstr s =>
    refine ⟨(requestedNames ps).map (fun _ => none), ?_, by simp, ?_⟩
    · simp [check_get_ret, check_fields, JVal.isDict]
    · exact List.map_congr_left (fun p _ => by simp [claimedValue])
  | vlist xs =>
    refine ⟨(requestedNames ps).map (fun _ => none), ?_, by simp, ?_⟩
    · simp [check_get_ret, check_fields, JVal.isDict]
    · exact List.map_congr_left (fun p _ => by simp [claimedValue])
  | vtup xs =>
    refine ⟨(requestedNames ps).map (fun _ => none), ?_, by simp, ?_⟩
    · simp [check_get_ret, check_fields, JVal.isDict]
    · exact List.map_congr_left (fun p _ => by simp [claimedValue])

/-- A connected client whose every call returns None. -/
def nullClient : Client := ⟨true, fun _ _ _ => .vnone⟩

/-- The concrete response of claim C1's witness client. -/
def c1Client : Client :=
  ⟨true, fun _ _ _ => .vdict [("return", .vlist [.vdict [("name", .vstr "Default Work Unit")]])]⟩

theorem claim_C1_witness :
    respOk (c1Client.call core_object_get (mkGetQuery "{A}")
      (some (requestedNames (some (.seq ["name", "missing"]))))) = true ∧
    ∃ vals, get_object c1Client "{A}" (some (.seq ["name", "missing"])) = .ok vals ∧
      vals.length = (requestedNames (some (.seq ["name", "missing"]))).length ∧
      vals = (requestedNames (some (.seq ["name", "missing"]))).map
        (claimedValue (c1Client.call core_object_get (mkGetQuery "{A}")
          (some (requestedNames (some (.seq ["name", "missing"])))))) :=
  ⟨rfl, claim_C1_get_object_shape c1Client "{A}" (some (.seq ["name", "missing"])) rfl rfl⟩

/-- C10: calling set_property_value with a None value performs no remote
call at all, for every client, object identifier and property name: the
emitted call trace is empty, so the remote object is left untouched. -/
theorem claim_C10_set_property_none (c : Client) (g p : String) :
    set_property_value c g p none = [] := rfl

/-- C6 (code-bug evidence): walk_wproj with a None start list, or a None
types argument, does not raise: the `return ValueError(...)` inside the
generator merely ends the iteration, so the walk is silently empty with no
remote call, in contrast with the disconnected-client check which raises. -/
theorem claim_C6_walk_none_args_silent :
    walk_wproj nullClient none (some (.str "id")) (some (.str "any")) 5 = .ok ([], []) ∧
    walk_wproj nullClient (some (.str "\\Actor-Mixer Hierarchy")) (some (.str "id")) none 5
      = .ok ([], []) ∧
    walk_wproj ⟨false, fun _ _ _ => .vnone⟩ none (some (.str "id")) (some (.str "any")) 5
      = .error (.py .valueError) :=
  ⟨rfl, rfl, rfl⟩

theorem pyAddStr_tag_filename (tag wav : String) :
    pyAddStr (.vstr tag) (get_filename wav) = .error .typeError := by
  simp [get_filename, pyAddStr]

/-- C7 (code-bug evidence): import_audio raises TypeError for every
non-empty wav list, no matter the client or options, because _get_filename
returns the (root, extension) pair of splitext and the source concatenates
the string tag with that tuple. No remote call is ever made. -/
theorem claim_C7_import_audio_raises (c : Client) (parent wav : String)
    (rest : List String) (op sub : String) (voice : Bool) :
    import_audio c parent (wav :: rest) op sub voice = .error .typeError := by
  cases voice <;> simp [import_audio, importEntries, pyAddStr_tag_filename]

/-- A successful nested deep-create response: root id {G1} with one created
child {G2} inside a children array, mirroring the request nesting. -/
def c2DeepResp : JVal :=
  .vdict [("id", .vstr "{G1}"), ("name", .vstr "A"),
          ("children", .vlist [.vdict [("id", .vstr "{G2}"), ("name", .vstr "B")]])]

def c2Client : Client := ⟨true, fun _ _ _ => c2DeepResp⟩

/-- C2 (code-bug evidence): creating two objects with method deep against a
successful nested response holding both created ids returns a single id:
_iter_dict_depth cannot descend through the list value under "children", so
every id but the root one is lost and no None placeholder is produced. -/
theorem claim_C2_deep_loses_ids :
    create_objects c2Client "{P}" (.seq ["A", "B"]) (.seq ["Folder", "Folder"]) "deep" "merge"
      = .ok [some (.vstr "{G1}")] := by
  have hiter : iter_dict_depth
      (.vdict [("id", .vstr "{G1}"), ("name", .vstr "A"),
               ("children", .vlist [.vdict [("id", .vstr "{G2}"), ("name", .vstr "B")]])])
      "children"
      = .ok [.vdict [("id", .vstr "{G1}"), ("name", .vstr "A"),
                     ("children", .vlist [.vdict [("id", .vstr "{G2}"), ("name", .vstr "B")]])],
             .vlist [.vdict [("id", .vstr "{G2}"), ("name", .vstr "B")]]] := by
    simp [iter_dict_depth, iter_dict_depth_from, iter_dict_depth_go]
  simp only [create_objects, create_objects__deep, c2Client, c2DeepResp]
  simp [check_client, ensure_str_list, lenStrOrSeq, check_fields, hasKey, jlookup,
    JVal.isDict, hiter, collectIds, pyInKey, getitemD]

/-- A client answering every children query with one object that has id and
type but no name property. -/
def c3Client : Client :=
  ⟨true, fun _ _ _ => mkRet [.vdict [("id", .vstr "{B}"), ("type", .vstr "Sound")]]⟩

/-- C3 counterexample: a children fetch that returns an object lacking the
requested "name" key makes the walk raise KeyError, refuting the claim that
an unexpected object shape silently yields nothing and never raises. -/
theorem claim_C3_counterexample :
    walk_wproj c3Client (some (.str "{A}")) (some (.str "name")) (some (.str "any")) 3
      = .error (.py .keyError) := by
  have htup : ((["name"] : List String).mapM
      (fun p => getitemD (.vdict [("id", .vstr "{B}"), ("type", .vstr "Sound")]) p))
      = (.error .keyError : Except PyErr (List JVal)) := rfl
  have hobj : walkObjs c3Client ["name", "id", "type"] ["name"] .anyT 2
      [.vdict [("id", .vstr "{B}"), ("type", .vstr "Sound")]] = .error (.py .keyError) := by
    simp only [walkObjs, typeOK, htup]
    simp
  have hcall : ∀ (q : JVal) (o : Option (List String)), c3Client.call core_object_get q o
      = mkRet [.vdict [("id", .vstr "{B}"), ("type", .vstr "Sound")]] := fun _ _ => rfl
  have hwdf : walkDF c3Client ["name", "id", "type"] ["name"] .anyT 3 "{A}"
      = .error (.py .keyError) := by
    simp only [walkDF, hcall, check_get_ret_mkRet, getitemD_mkRet, pyIterElems]
    simp [hobj]
  have hsingle := walk_wproj_single c3Client rfl "{A}" (by decide) (some (.str "name"))
    (.str "any") rfl 3
  rw [hsingle]
  simpa [ensure_str_list, propsPlus, ensure_types] using hwdf

/-- C3 (amended): whenever the remote children fetch for a node fails or
returns a malformed response (one failing the return-check), that branch
silently yields nothing further: the level records its single call, yields
no tuple, and raises nothing; but an object lacking a requested property key
raises instead (see the counterexample). -/
theorem claim_C3_malformed_branch_silent (c : Client) (props rp : List String)
    (ty : TypesArg) (fuel : Nat) (start : String)
    (h : check_get_ret (c.call core_object_get (childrenQuery start) (some props)) = .ok false) :
    walkDF c props rp ty (fuel + 1) start
      = .ok ([⟨core_object_get, childrenQuery start, some props⟩], []) := by
  simp only [walkDF, h]

theorem claim_C3_witness :
    check_get_ret (nullClient.call core_object_get (childrenQuery "{A}")
      (some ["name", "id", "type"])) = .ok false ∧
    walkDF nullClient ["name", "id", "type"] ["name"] .anyT 4 "{A}"
      = .ok ([⟨core_object_get, childrenQuery "{A}", some ["name", "id", "type"]⟩], []) :=
  ⟨rfl, claim_C3_malformed_branch_silent nullClient ["name", "id", "type"] ["name"] .anyT 3 "{A}" rfl⟩

/-- Concatenation of walk results in list order: the calls and yields of
each walk in sequence, stopping at the first failure exactly as the single
generator would. -/
def concatWalks : List (Except WalkErr (List CallRec × List (List JVal))) →
    Except WalkErr (List CallRec × List (List JVal))
  | [] => .ok ([], [])
  | r :: rest =>
    match r with
    | .error e => .error e
    | .ok (cs, ys) =>
      match concatWalks rest with
      | .error e => .error e
      | .ok (cs2, ys2) => .ok (cs ++ cs2, ys ++ ys2)

theorem walkStarts_concat (c : Client) (p rp : List String) (ty : TypesArg) (fuel : Nat) :
    ∀ starts, walkStarts c p rp ty fuel starts
      = concatWalks (starts.map (fun s => walkDF c p rp ty fuel s))
  | [] => rfl
  | s :: rest => by
    cases h : walkDF c p rp ty fuel s with
    | error e => simp [walkStarts, concatWalks, h]
    | ok pr =>
      obtain ⟨a, b⟩ := pr
      simp [walkStarts, concatWalks, h, walkStarts_concat c p rp ty fuel rest]

theorem concatWalks_const_empty : ∀ (l : List String),
    concatWalks (l.map (fun _ => .ok ([], []))) = .ok ([], [])
  | [] => rfl
  | _ :: rest => by
    simp only [List.map_cons, concatWalks, concatWalks_const_empty rest, List.nil_append]

theorem walk_wproj_falsy_types (c : Client) (hc : check_client c = true)
    (sa : Option StrOrSeq) (ps : Option StrOrSeq) (ta : Option StrOrSeq)
    (hta : truthyArg ta = false) (fuel : Nat) :
    walk_wproj c sa ps ta fuel = .ok ([], []) := by
  have hnone : is_any_val_none sa ta = true := by
    simp [is_any_val_none, hta]
  simp [walk_wproj, hc, hnone]

/-- C9: for every connected client and every list of non-empty starting
guid-or-path strings, the walk over the list equals the concatenation, in
list order, of the walks of each starting object alone with the same
properties and types arguments (a single string argument behaving as the
one-element list); this also holds when the types argument makes both sides
silently empty. -/
theorem claim_C9_walk_concat (c : Client) (starts : List String)
    (ps ts : Option StrOrSeq) (fuel : Nat)
    (hc : c.connected = true) (hs : ∀ s ∈ starts, ¬ s = "") :
    walk_wproj c (some (.seq starts)) ps ts fuel
      = concatWalks (starts.map (fun s => walk_wproj c (some (.str s)) ps ts fuel)) := by
  have hcc : check_client c = true := hc
  cases hta : truthyArg ts with
  | false =>
    rw [walk_wproj_falsy_types c hcc (some (.seq starts)) ps ts hta fuel]
    have hsingle : ∀ s : String,
        walk_wproj c (some (.str s)) ps ts fuel = .ok ([], []) :=
      fun s => walk_wproj_falsy_types c hcc (some (.str s)) ps ts hta fuel
    rw [List.map_congr_left (fun s _ => hsingle s), concatWalks_const_empty]
  | true =>
    obtain ⟨ta, rfl⟩ : ∃ ta, ts = some ta := by
      cases ts with
      | none => simp [truthyArg] at hta
      | some ta => exact ⟨ta, rfl⟩
    have hta2 : truthyS ta = true := by simpa [truthyArg] using hta
    cases starts with
    | nil =>
      have hL : walk_wproj c (some (.seq [])) ps (some ta) fuel = .ok ([], []) := by
        simp [walk_wproj, hcc, is_any_val_none, truthyArg, truthyS]
      rw [hL]
      rfl
    | cons s rest =>
      have hL : walk_wproj c (some (.seq (s :: rest))) ps (some ta) fuel
          = walkStarts c (propsPlus (ensure_str_list (ps.getD (.seq ["id"]))))
              (ensure_str_list (ps.getD (.seq ["id"]))) (ensure_types ta) fuel (s :: rest) := by
        have hnone : is_any_val_none (some (.seq (s :: rest))) (some ta) = false := by
          simp only [is_any_val_none, truthyArg, hta2]
          simp [truthyS]
        simp [walk_wproj, hcc, hnone, ensure_str_list]
      rw [hL, walkStarts_concat]
      congr 1
      refine List.map_congr_left (fun x hx => ?_)
      exact (walk_wproj_single c hcc x (hs x hx) ps ta hta2 fuel).symm

theorem claim_C9_witness :
    nullClient.connected = true ∧ (∀ s ∈ ["{X}", "{Y}"], ¬ s = "") ∧
    walk_wproj nullClient (some (.seq ["{X}", "{Y}"])) (some (.str "name")) (some (.str "any")) 4
      = concatWalks (["{X}", "{Y}"].map
          (fun s => walk_wproj nullClient (some (.str s)) (some (.str "name")) (some (.str "any")) 4)) :=
  ⟨rfl, by decide,
    claim_C9_walk_concat nullClient ["{X}", "{Y}"] (some (.str "name")) (some (.str "any")) 4
      rfl (by decide)⟩

/-- C4: every recursion level of a walk_wproj traversal over a tree-shaped
remote issues exactly one children fetch whose requested property list is
the caller's list with "id" and "type" appended when not already present
(one call per visited node, the start plus each strict descendant), the
yielded tuples cover only the caller's original list, and a level whose
fetch returns no children terminates that branch with its single call and
no yields. -/
theorem claim_C4_one_fetch_per_level (c : Client) (rpArg ta : StrOrSeq) (t : WTree)
    (fuel : Nat)
    (hc : c.connected = true) (hnid : ¬ t.nid = "") (hta : truthyS ta = true)
    (hca : clientAnswers c (propsPlus (ensure_str_list rpArg)) t)
    (hdp : descHaveProps (ensure_str_list rpArg) t = true)
    (hf : theight t ≤ fuel) :
    walk_wproj c (some (.str t.nid)) (some rpArg) (some ta) fuel
      = .ok ((preIds t).map (mkWalkCall (propsPlus (ensure_str_list rpArg))),
             yieldsModel (ensure_str_list rpArg) (ensure_types ta) t)
    ∧ ((preIds t).map (mkWalkCall (propsPlus (ensure_str_list rpArg)))).length
        = 1 + (strictDesc t).length
    ∧ (∀ tup ∈ yieldsModel (ensure_str_list rpArg) (ensure_types ta) t,
        tup.length = (ensure_str_list rpArg).length)
    ∧ (t.children = [] →
        walk_wproj c (some (.str t.nid)) (some rpArg) (some ta) fuel
          = .ok ([mkWalkCall (propsPlus (ensure_str_list rpArg)) t.nid], [])) := by
  have hcc : check_client c = true := hc
  have hmain := walkDF_tree c (propsPlus (ensure_str_list rpArg)) (ensure_str_list rpArg)
    (ensure_types ta) (id_mem_propsPlus _) (type_mem_propsPlus _)
    (fun p hp => sub_propsPlus hp) fuel t hca hdp hf
  have hsingle := walk_wproj_single c hcc t.nid hnid (some rpArg) ta hta fuel
  refine ⟨?_, ?_, ?_, ?_⟩
  · rw [hsingle]; exact hmain
  · rw [List.length_map, preIds_length]
  · intro tup htup; exact yieldsModel_mem_length htup
  · intro hleaf
    rw [hsingle]
    obtain ⟨i, ty2, ps2, cs⟩ := t
    simp only [WTree.children] at hleaf
    subst hleaf
    simpa [preIds, preIdsL, yieldsModel, yieldsModelL, mkWalkCall, WTree.nid] using hmain

/-- Extracts the start object of a children query (used by the concrete test
clients below to answer queries by id). -/
def queryStart (q : JVal) : Option String :=
  match q with
  | .vdict (("from", .vdict [(_, .vlist [.vstr s])]) :: _) => some s
  | _ => none

def sampleProps : List String := ["name", "id", "type"]

def sampleB : WTree := .node "{B}" "Sound" [("name", .vstr "SND_01")] []

def sampleD : WTree := .node "{D}" "Sound" [("name", .vstr "SND_02")] []

def sampleC : WTree := .node "{C}" "RandomSequenceContainer" [("name", .vstr "RND_01")] [sampleD]

def sampleTree : WTree := .node "{A}" "WorkUnit" [] [sampleB, sampleC]

/-- A connected client that behaves as the remote for sampleTree. -/
def sampleClient : Client :=
  ⟨true, fun _ q _ =>
    match queryStart q with
    | some "{A}" => mkRet ([sampleB, sampleC].map (objFor sampleProps))
    | some "{C}" => mkRet ([sampleD].map (objFor sampleProps))
    | some _ => mkRet []
    | none => .vnone⟩

theorem sampleClient_answers : clientAnswers sampleClient sampleProps sampleTree := by
  simp only [sampleTree, sampleB, sampleC, sampleD, clientAnswers, clientAnswersL]
  exact ⟨rfl, ⟨rfl, trivial⟩, ⟨rfl, ⟨rfl, trivial⟩, trivial⟩, trivial⟩

theorem sampleTree_descProps : descHaveProps ["name"] sampleTree = true := by
  simp [descHaveProps, descHavePropsL, hasPropsSelf, sampleTree, sampleB, sampleC,
    sampleD, WTree.propVal, jlookup]

theorem sampleTree_height : theight sampleTree ≤ 3 := by
  simp [theight, theightL, sampleTree, sampleB, sampleC, sampleD]

theorem claim_C4_witness :
    walk_wproj sampleClient (some (.str (WTree.nid sampleTree))) (some (.str "name"))
        (some (.str "any")) 3
      = .ok ((preIds sampleTree).map (mkWalkCall (propsPlus (ensure_str_list (.str "name")))),
             yieldsModel (ensure_str_list (.str "name")) (ensure_types (.str "any")) sampleTree)
    ∧ ((preIds sampleTree).map (mkWalkCall (propsPlus (ensure_str_list (.str "name"))))).length
        = 1 + (strictDesc sampleTree).length
    ∧ (∀ tup ∈ yieldsModel (ensure_str_list (.str "name")) (ensure_types (.str "any")) sampleTree,
        tup.length = (ensure_str_list (.str "name")).length)
    ∧ (WTree.children sampleTree = [] →
        walk_wproj sampleClient (some (.str (WTree.nid sampleTree))) (some (.str "name"))
            (some (.str "any")) 3
          = .ok ([mkWalkCall (propsPlus (ensure_str_list (.str "name"))) (WTree.nid sampleTree)], [])) :=
  claim_C4_one_fetch_per_level sampleClient (.str "name") (.str "any") sampleTree 3
    rfl (by decide) rfl sampleClient_answers sampleTree_descProps sampleTree_height

/-- C5: walk_wproj applies the type filter per node after the fetch: the
yielded tuples are exactly the tuples of the strict descendants whose
fetched type passes the filter (all of them when the filter is "any"),
while the issued remote calls (and hence the children recursed into) are
identical under any two type filters, each call being the plain children
query that never mentions the filter. -/
theorem claim_C5_type_filter_post_fetch (c : Client) (rpArg ta1 ta2 : StrOrSeq)
    (t : WTree) (fuel : Nat)
    (hc : c.connected = true) (hnid : ¬ t.nid = "")
    (hta1 : truthyS ta1 = true) (hta2 : truthyS ta2 = true)
    (hca : clientAnswers c (propsPlus (ensure_str_list rpArg)) t)
    (hdp : descHaveProps (ensure_str_list rpArg) t = true)
    (hf : theight t ≤ fuel) :
    walk_wproj c (some (.str t.nid)) (some rpArg) (some ta1) fuel
      = .ok ((preIds t).map (mkWalkCall (propsPlus (ensure_str_list rpArg))),
             ((strictDesc t).filter (typeMatchModel (ensure_types ta1))).map
               (tupleFor (ensure_str_list rpArg)))
    ∧ (walk_wproj c (some (.str t.nid)) (some rpArg) (some ta1) fuel).map Prod.fst
        = (walk_wproj c (some (.str t.nid)) (some rpArg) (some ta2) fuel).map Prod.fst := by
  have hcc : check_client c = true := hc
  have hm1 := walkDF_tree c (propsPlus (ensure_str_list rpArg)) (ensure_str_list rpArg)
    (ensure_types ta1) (id_mem_propsPlus _) (type_mem_propsPlus _)
    (fun p hp => sub_propsPlus hp) fuel t hca hdp hf
  have hm2 := walkDF_tree c (propsPlus (ensure_str_list rpArg)) (ensure_str_list rpArg)
    (ensure_types ta2) (id_mem_propsPlus _) (type_mem_propsPlus _)
    (fun p hp => sub_propsPlus hp) fuel t hca hdp hf
  have hs1 := walk_wproj_single c hcc t.nid hnid (some rpArg) ta1 hta1 fuel
  have hs2 := walk_wproj_single c hcc t.nid hnid (some rpArg) ta2 hta2 fuel
  simp only [Option.getD_some] at hs1 hs2
  constructor
  · rw [yieldsModel_eq] at hm1
    rw [hs1]
    exact hm1
  · rw [hs1, hs2, hm1, hm2]
    simp [Except.map]

theorem claim_C5_witness :
    (walk_wproj sampleClient (some (.str (WTree.nid sampleTree))) (some (.str "name"))
        (some (.seq ["Sound"])) 3
      = .ok ((preIds sampleTree).map (mkWalkCall (propsPlus (ensure_str_list (.str "name")))),
             ((strictDesc sampleTree).filter (typeMatchModel (ensure_types (.seq ["Sound"])))).map
               (tupleFor (ensure_str_list (.str "name")))))
    ∧ (walk_wproj sampleClient (some (.str (WTree.nid sampleTree))) (some (.str "name"))
        (some (.seq ["Sound"])) 3).map Prod.fst
        = (walk_wproj sampleClient (some (.str (WTree.nid sampleTree))) (some (.str "name"))
            (some (.str "any")) 3).map Prod.fst :=
  claim_C5_type_filter_post_fetch sampleClient (.str "name") (.seq ["Sound"]) (.str "any")
    sampleTree 3 rfl (by decide) rfl rfl sampleClient_answers sampleTree_descProps
    sampleTree_height

/-- C8: when the remote children relation reachable from the start is a
finite acyclic tree (the model precondition), the walk is finite: with fuel
at least the tree height it returns an ordinary result rather than
exhausting the recursion budget, its calls visit exactly the start node and
every strict descendant in preorder, and when the node ids are distinct
each of them is visited exactly once, despite the absence of cycle
detection, depth limits or memoization in the source. -/
theorem claim_C8_tree_walk_terminates (c : Client) (rpArg ta : StrOrSeq) (t : WTree)
    (fuel : Nat)
    (hc : c.connected = true) (hnid : ¬ t.nid = "") (hta : truthyS ta = true)
    (hca : clientAnswers c (propsPlus (ensure_str_list rpArg)) t)
    (hdp : descHaveProps (ensure_str_list rpArg) t = true)
    (hf : theight t ≤ fuel) (hnd : (preIds t).Nodup) :
    walk_wproj c (some (.str t.nid)) (some rpArg) (some ta) fuel
      = .ok ((preIds t).map (mkWalkCall (propsPlus (ensure_str_list rpArg))),
             yieldsModel (ensure_str_list rpArg) (ensure_types ta) t)
    ∧ preIds t = (t :: strictDesc t).map WTree.nid
    ∧ ∀ s ∈ preIds t, (preIds t).count s = 1 := by
  have hcc : check_client c = true := hc
  have hmain := walkDF_tree c (propsPlus (ensure_str_list rpArg)) (ensure_str_list rpArg)
    (ensure_types ta) (id_mem_propsPlus _) (type_mem_propsPlus _)
    (fun p hp => sub_propsPlus hp) fuel t hca hdp hf
  have hsingle := walk_wproj_single c hcc t.nid hnid (some rpArg) ta hta fuel
  exact ⟨by rw [hsingle]; exact hmain, preIds_eq t,
    fun s hs => List.count_eq_one_of_mem hnd hs⟩

theorem sampleTree_nodup : (preIds sampleTree).Nodup := by
  have h : preIds sampleTree = ["{A}", "{B}", "{C}", "{D}"] := by
    simp [preIds, preIdsL, sampleTree, sampleB, sampleC, sampleD]
  rw [h]
  decide

theorem claim_C8_witness :
    walk_wproj sampleClient (some (.str (WTree.nid sampleTree))) (some (.str "name"))
        (some (.str "any")) 3
      = .ok ((preIds sampleTree).map (mkWalkCall (propsPlus (ensure_str_list (.str "name")))),
             yieldsModel (ensure_str_list (.str "name")) (ensure_types (.str "any")) sampleTree)
    ∧ preIds sampleTree = (sampleTree :: strictDesc sampleTree).map WTree.nid
    ∧ ∀ s ∈ preIds sampleTree, (preIds sampleTree).count s = 1 :=
  claim_C8_tree_walk_terminates sampleClient (.str "name") (.str "any") sampleTree 3
    rfl (by decide) rfl sampleClient_answers sampleTree_descProps sampleTree_height
    sampleTree_nodup
